import Mathlib

/- Shallow embedding of the configuration synthesis engine of the PHP
   buildpack supplier (src/php/supply/supply.go).

   Go strings are modelled as lists of characters (`Str`); Go maps used as
   sets (`map[string]bool` with `true` values) are modelled as `Finset Str`;
   the two template binding contexts (Go `map[string]string` literals) are
   modelled as association lists with a Go-map-style lookup and update. -/

abbrev Str := List Char

/-- Coercion from Lean string literals to the character-list model. -/
def str (s : String) : Str := s.toList

/-- Fuel-driven core of the replacement scan.  Each step consumes at least
    one character and one unit of fuel, so fuel at least the input length
    never runs out and the exhaustion arm is unreachable from
    `replaceAll`. -/
def replaceAllF : Nat → Str → Str → Str → Str
  | _, _, _, [] => []
  | 0, _, _, s => s
  | fuel + 1, pat, rep, c :: rest =>
    if pat ≠ [] ∧ pat.isPrefixOf (c :: rest) then
      rep ++ replaceAllF fuel pat rep ((c :: rest).drop pat.length)
    else
      c :: replaceAllF fuel pat rep rest

/-- Go `strings.Replace(s, pat, rep, -1)`: replace every non-overlapping
    occurrence of `pat`, scanning left to right.  The Go function treats an
    empty `pat` specially (insertion between characters); every pattern the
    embedded code passes is non-empty, and for an empty `pat` this model is
    the identity. -/
def replaceAll (pat rep s : Str) : Str :=
  replaceAllF s.length pat rep s

/-- Go `strings.Contains(s, t)`. -/
def containsSub (t : Str) : Str → Bool
  | [] => t.isPrefixOf []
  | c :: rest => if t.isPrefixOf (c :: rest) then true else containsSub t rest

/-- Go `strings.Split(v, sep)` for a one-character separator; never returns
    an empty list. -/
def splitOnChar (sep : Char) : Str → List Str
  | [] => [[]]
  | c :: rest =>
    let r := splitOnChar sep rest
    if c = sep then [] :: r
    else
      match r with
      | [] => [[c]]
      | p :: ps => (c :: p) :: ps

/-- Go `strings.Join(parts, sep)`. -/
def goJoin (sep : Str) : List Str → Str
  | [] => []
  | [p] => p
  | p :: q :: ps => p ++ sep ++ goJoin sep (q :: ps)

/-- Embedding of `versionLine` (supply.go:490-494): split on dots, replace
    the last component by "x", join with dots.  `splitOnChar` never returns
    an empty list, so overwriting the last entry is `dropLast ++ [x]`. -/
def versionLine (v : Str) : Str :=
  let vs := splitOnChar '.' v
  goJoin (str ".") (vs.dropLast ++ [str "x"])

lemma splitOnChar_ne_nil (sep : Char) (v : Str) : splitOnChar sep v ≠ [] := by
  cases v with
  | nil => simp [splitOnChar]
  | cons c rest =>
    simp only [splitOnChar]
    by_cases h : c = sep
    · simp [h]
    · simp only [h, if_false]
      cases splitOnChar sep rest with
      | nil => simp
      | cons p ps => simp

lemma goJoin_splitOnChar (sep : Char) (v : Str) :
    goJoin [sep] (splitOnChar sep v) = v := by
  induction v with
  | nil => rfl
  | cons c rest ih =>
    simp only [splitOnChar]
    by_cases h : c = sep
    · subst h
      rw [if_pos rfl]
      cases hr : splitOnChar c rest with
      | nil => exact absurd hr (splitOnChar_ne_nil c rest)
      | cons p ps =>
        rw [hr] at ih
        simp [goJoin, ih]
    · rw [if_neg h]
      cases hr : splitOnChar sep rest with
      | nil => exact absurd hr (splitOnChar_ne_nil sep rest)
      | cons p ps =>
        rw [hr] at ih
        cases ps with
        | nil => simpa [goJoin] using congrArg (c :: ·) ih
        | cons q qs =>
          simp only [goJoin] at ih ⊢
          simpa [List.cons_append] using congrArg (c :: ·) ih

lemma not_mem_of_mem_splitOnChar (sep : Char) (v : Str) :
    ∀ p ∈ splitOnChar sep v, sep ∉ p := by
  induction v with
  | nil => intro p hp; simp_all [splitOnChar]
  | cons c rest ih =>
    intro p hp
    by_cases h : c = sep
    · subst h
      have hsplit : splitOnChar c (c :: rest) = [] :: splitOnChar c rest := by
        simp [splitOnChar]
      rw [hsplit] at hp
      rcases List.mem_cons.mp hp with hp | hp
      · simp [hp]
      · exact ih p hp
    · cases hr : splitOnChar sep rest with
      | nil => exact absurd hr (splitOnChar_ne_nil sep rest)
      | cons q qs =>
        have hsplit : splitOnChar sep (c :: rest) = (c :: q) :: qs := by
          simp [splitOnChar, h, hr]
        rw [hsplit] at hp
        rcases List.mem_cons.mp hp with hp | hp
        · subst hp
          intro hmem
          rcases List.mem_cons.mp hmem with hc | hc
          · exact h hc.symm
          · exact ih q (hr ▸ List.mem_cons_self q qs) hc
        · exact ih p (hr ▸ List.mem_cons_of_mem q hp)

lemma splitOnChar_of_not_mem (sep : Char) (p : Str) (h : sep ∉ p) :
    splitOnChar sep p = [p] := by
  induction p with
  | nil => rfl
  | cons c rest ih =>
    simp only [List.mem_cons, not_or] at h
    simp only [splitOnChar, ih h.2]
    rw [if_neg (fun hc => h.1 hc.symm)]

lemma splitOnChar_append_cons (sep : Char) (p r : Str) (h : sep ∉ p) :
    splitOnChar sep (p ++ sep :: r) = p :: splitOnChar sep r := by
  induction p with
  | nil => simp [splitOnChar]
  | cons c rest ih =>
    simp only [List.mem_cons, not_or] at h
    simp only [List.cons_append, splitOnChar, List.append_eq, ih h.2]
    rw [if_neg (fun hc => h.1 hc.symm)]

lemma splitOnChar_goJoin (sep : Char) (l : List Str) (h : l ≠ [])
    (h2 : ∀ p ∈ l, sep ∉ p) : splitOnChar sep (goJoin [sep] l) = l := by
  induction l with
  | nil => exact absurd rfl h
  | cons p ps ih =>
    cases ps with
    | nil =>
      simpa [goJoin] using splitOnChar_of_not_mem sep p (h2 p (by simp))
    | cons q qs =>
      have hjoin : goJoin [sep] (p :: q :: qs) = p ++ sep :: goJoin [sep] (q :: qs) := by
        simp [goJoin]
      rw [hjoin, splitOnChar_append_cons sep p _ (h2 p (by simp))]
      rw [ih (by simp) (fun x hx => h2 x (List.mem_cons_of_mem p hx))]

/-- Matcher for the alias pattern anchored at the head of the string: the
    regular-expression fragment PHP_(digit)(digit)_LATEST used by
    SetupPhpVersion (supply.go:176). -/
def aliasAt : Str → Option (Char × Char)
  | e0 :: e1 :: e2 :: e3 :: d1 :: d2 :: e6 :: e7 :: e8 :: e9 :: e10 :: e11 :: e12 :: _ =>
    if e0 = 'P' ∧ e1 = 'H' ∧ e2 = 'P' ∧ e3 = '_' ∧ d1.isDigit ∧ d2.isDigit ∧
        e6 = '_' ∧ e7 = 'L' ∧ e8 = 'A' ∧ e9 = 'T' ∧ e10 = 'E' ∧ e11 = 'S' ∧ e12 = 'T'
    then some (d1, d2) else none
  | _ => none

/-- Leftmost-occurrence search for the alias pattern, modelling
    regexp.MustCompile(...).FindStringSubmatch of supply.go:176. -/
def findAlias : Str → Option (Char × Char)
  | [] => none
  | c :: rest =>
    match aliasAt (c :: rest) with
    | some r => some r
    | none => findAlias rest

/-- Alias expansion of supply.go:176-182: when the PHP_dd_LATEST pattern
    occurs in the version, the version becomes "d.d.x" (the two captured
    digits, dotted, with an x wildcard); otherwise the string is kept. -/
def expandAlias (v : Str) : Str :=
  match findAlias v with
  | some (d1, d2) => [d1, '.', d2, '.', 'x']
  | none => v

lemma expandAlias_ne_nil (v : Str) (h : v ≠ []) : expandAlias v ≠ [] := by
  unfold expandAlias
  cases findAlias v with
  | none => simpa using h
  | some p => cases p; simp

lemma replaceAll_ne_nil (pat rep s : Str) (hrep : rep ≠ []) (hs : s ≠ []) :
    replaceAll pat rep s ≠ [] := by
  cases s with
  | nil => exact absurd rfl hs
  | cons c rest =>
    show replaceAllF (c :: rest).length pat rep (c :: rest) ≠ []
    rw [List.length_cons, replaceAllF]
    split
    · simp [hrep]
    · simp

/-- Result record for SetupPhpVersion (supply.go:172-219).  `candidate` is
    the constraint handed to libbuildpack.FindMatchingVersion, none when no
    version was supplied at all; `precedenceWarning` reports the warnings of
    lines 189-190; `noMatchWarning` the leniency warning of line 201;
    `result` is the final version, or the fatal error propagated from the
    default-version lookup at line 211. -/
structure PhpVersionOutcome where
  candidate : Option Str
  precedenceWarning : Bool
  noMatchWarning : Bool
  result : Except Unit Str

/-- Embedding of SetupPhpVersion (supply.go:172-219).  `optVer` is the
    options.json PHP_VERSION string and `compVer` the composer.json
    require.php string, the empty string standing for an absent or
    non-string value (the code skips both alike); `findMatching` abstracts
    libbuildpack.FindMatchingVersion over the manifest's php versions, and
    `defaultVer` the manifest's DefaultVersion lookup, with none standing
    for the error outcome of each collaborator. -/
def setupPhpVersion (optVer compVer : Str) (findMatching : Str → Option Str)
    (defaultVer : Option Str) : PhpVersionOutcome :=
  let v1 : Str := if optVer = [] then [] else expandAlias optVer
  let precWarn : Bool := decide (compVer ≠ [] ∧ v1 ≠ [])
  let v2 : Str := if compVer = [] then v1 else replaceAll (str ">=") (str "~>") compVer
  let step : Option Str × Bool × Str :=
    if v2 = [] then (none, false, [])
    else
      match findMatching v2 with
      | none => (some v2, true, [])
      | some v => (some v2, false, v)
  let result : Except Unit Str :=
    if step.2.2 = [] then
      match defaultVer with
      | none => Except.error ()
      | some d => Except.ok d
    else Except.ok step.2.2
  ⟨step.1, precWarn, step.2.1, result⟩

/-- Built-in default PHP extension set of SetupExtensions (supply.go:222);
    openssl is commented out in the source and hence absent. -/
def defaultPhpExtensions : Finset Str :=
  {str "bz2", str "zlib", str "curl", str "mcrypt"}

/-- One require-map key of composer.json as processed by the loop of
    supply.go:254-261: a key with the "ext-" marker adds its stripped name. -/
def extAdd (k : Str) (s : Finset Str) : Finset Str :=
  if (str "ext-").isPrefixOf k then insert (k.drop 4) s else s

/-- Second half of the same loop body: a key with the "ext-pdo_" driver
    sub-marker additionally adds the umbrella name "pdo". -/
def pdoAdd (k : Str) (s : Finset Str) : Finset Str :=
  if (str "ext-pdo_").isPrefixOf k then insert (str "pdo") s else s

/-- The whole require-key loop of supply.go:254-261 over an enumeration of
    the require map's keys. -/
def composerStep : List Str → Finset Str → Finset Str
  | [], s => s
  | k :: ks, s => composerStep ks (pdoAdd k (extAdd k s))

/-- Embedding of SetupExtensions (supply.go:221-266), restricted to the PHP
    extension set (the zend set is independent and uses no defaults).
    `optPhp` is the PHP_EXTENSIONS array of options.json when present, with
    none entries standing for the non-string array values the code skips;
    `reqKeys` enumerates the keys of composer.json's require map when that
    map is present.  Returns the final extension set and whether the
    deprecation warning of line 227 fired. -/
def setupExtensions (optPhp : Option (List (Option Str))) (reqKeys : Option (List Str)) :
    Finset Str × Bool :=
  let base : Finset Str :=
    match optPhp with
    | none => defaultPhpExtensions
    | some arr => (arr.filterMap id).toFinset
  let final : Finset Str :=
    match reqKeys with
    | none => base
    | some ks => composerStep ks base
  (final, optPhp.isSome)

lemma mem_extAdd (k : Str) (s : Finset Str) (x : Str) :
    x ∈ extAdd k s ↔ x ∈ s ∨ ((str "ext-").isPrefixOf k = true ∧ x = k.drop 4) := by
  unfold extAdd
  by_cases h : (str "ext-").isPrefixOf k
  · simp [h, or_comm]
  · simp [h]

lemma mem_pdoAdd (k : Str) (s : Finset Str) (x : Str) :
    x ∈ pdoAdd k s ↔ x ∈ s ∨ ((str "ext-pdo_").isPrefixOf k = true ∧ x = str "pdo") := by
  unfold pdoAdd
  by_cases h : (str "ext-pdo_").isPrefixOf k
  · simp [h, or_comm, eq_comm]
  · simp [h]

lemma mem_composerStep (ks : List Str) (s : Finset Str) (x : Str) :
    x ∈ composerStep ks s ↔
      x ∈ s
      ∨ (∃ k ∈ ks, (str "ext-").isPrefixOf k = true ∧ x = k.drop 4)
      ∨ (x = str "pdo" ∧ ∃ k ∈ ks, (str "ext-pdo_").isPrefixOf k = true) := by
  induction ks generalizing s with
  | nil => simp [composerStep]
  | cons k ks ih =>
    simp only [composerStep, ih, mem_pdoAdd, mem_extAdd, List.mem_cons]
    constructor
    · rintro (((hx | hx) | hx) | hx | hx)
      · exact Or.inl hx
      · exact Or.inr (Or.inl ⟨k, Or.inl rfl, hx.1, hx.2⟩)
      · exact Or.inr (Or.inr ⟨hx.2, k, Or.inl rfl, hx.1⟩)
      · obtain ⟨k', hk', hpre, hx⟩ := hx
        exact Or.inr (Or.inl ⟨k', Or.inr hk', hpre, hx⟩)
      · obtain ⟨hx, k', hk', hpre⟩ := hx
        exact Or.inr (Or.inr ⟨hx, k', Or.inr hk', hpre⟩)
    · rintro (hx | ⟨k', hk' | hk', hpre, hx⟩ | ⟨hx, k', hk' | hk', hpre⟩)
      · exact Or.inl (Or.inl (Or.inl hx))
      · subst hk'
        exact Or.inl (Or.inl (Or.inr ⟨hpre, hx⟩))
      · exact Or.inr (Or.inl ⟨k', hk', hpre, hx⟩)
      · subst hk'
        exact Or.inl (Or.inr ⟨hpre, hx⟩)
      · exact Or.inr (Or.inr ⟨hx, k', hk', hpre⟩)

/-- The three provenance tiers SetupExtensions (supply.go:221-266) draws
    from, as abstract mergeable sources for the order-independence claim. -/
inductive ExtSource where
  | defaults : ExtSource
  | options : Option (List (Option Str)) → ExtSource
  | composer : Option (List Str) → ExtSource
deriving DecidableEq

/-- One merge step, with the semantics each source has in the code: the
    built-in defaults contribute by union (the code assigns them into the
    initially empty map, supply.go:222), a present options array replaces
    the accumulated set wholesale (supply.go:228-233), and the composer
    require keys contribute additively (supply.go:254-261). -/
def applySource (s : Finset Str) : ExtSource → Finset Str
  | ExtSource.defaults => s ∪ defaultPhpExtensions
  | ExtSource.options none => s
  | ExtSource.options (some arr) => (arr.filterMap id).toFinset
  | ExtSource.composer none => s
  | ExtSource.composer (some ks) => composerStep ks s

/-- Merging a list of sources in order, starting from the empty set. -/
def mergeIn (l : List ExtSource) : Finset Str :=
  l.foldl applySource ∅

/-- The delta a source contributes when it acts additively. -/
def sourceContrib : ExtSource → Finset Str
  | ExtSource.defaults => defaultPhpExtensions
  | ExtSource.options _ => ∅
  | ExtSource.composer none => ∅
  | ExtSource.composer (some ks) => composerStep ks ∅

/-- A source is additive when applying it unions its contribution in. -/
def IsAdditive (src : ExtSource) : Prop :=
  ∀ s : Finset Str, applySource s src = s ∪ sourceContrib src

/-- Union of a list of finsets. -/
def unionAll : List (Finset Str) → Finset Str
  | [] => ∅
  | t :: ts => t ∪ unionAll ts

lemma unionAll_perm {l₁ l₂ : List (Finset Str)} (h : l₁.Perm l₂) :
    unionAll l₁ = unionAll l₂ := by
  induction h with
  | nil => rfl
  | cons x _ ih => simp [unionAll, ih]
  | swap x y l => simp [unionAll, Finset.union_left_comm]
  | trans _ _ ih1 ih2 => exact ih1.trans ih2

lemma composerStep_union (ks : List Str) (s : Finset Str) :
    composerStep ks s = s ∪ composerStep ks ∅ := by
  ext x
  simp only [mem_composerStep, Finset.mem_union, Finset.not_mem_empty, false_or]

lemma additive_defaults : IsAdditive ExtSource.defaults := fun _ => rfl

lemma additive_options_none : IsAdditive (ExtSource.options none) := by
  intro s
  simp [applySource, sourceContrib]

lemma additive_composer (c : Option (List Str)) : IsAdditive (ExtSource.composer c) := by
  intro s
  cases c with
  | none => simp [applySource, sourceContrib]
  | some ks => simpa [applySource, sourceContrib] using composerStep_union ks s

lemma foldl_additive (l : List ExtSource) (s : Finset Str)
    (h : ∀ src ∈ l, IsAdditive src) :
    l.foldl applySource s = s ∪ unionAll (l.map sourceContrib) := by
  induction l generalizing s with
  | nil => simp [unionAll]
  | cons src rest ih =>
    simp only [List.foldl_cons, List.map_cons, unionAll]
    rw [h src (List.mem_cons_self _ _), ih _ (fun x hx => h x (List.mem_cons_of_mem _ hx))]
    rw [Finset.union_assoc]

lemma setupExtensions_eq_mergeIn (o : Option (List (Option Str))) (c : Option (List Str)) :
    (setupExtensions o c).1 =
      mergeIn [ExtSource.defaults, ExtSource.options o, ExtSource.composer c] := by
  cases o with
  | none =>
    cases c with
    | none => simp [setupExtensions, mergeIn, applySource]
    | some ks => simp [setupExtensions, mergeIn, applySource]
  | some arr =>
    cases c with
    | none => simp [setupExtensions, mergeIn, applySource]
    | some ks => simp [setupExtensions, mergeIn, applySource]

/-- Serialization of the PHP extension set into the PhpExtensions block of
    the binding contexts (supply.go:317-319), over an enumeration of the
    set (Go map iteration order is unspecified). -/
def extensionLines (exts : List Str) : Str :=
  exts.foldl (fun acc e => acc ++ str "extension=" ++ e ++ str ".so\n") []

/-- Serialization of the zend extension set (supply.go:321-323). -/
def zendExtensionLines (exts : List Str) : Str :=
  exts.foldl (fun acc e => acc ++ str "zend_extension=" ++ e ++ str "\n") []

/-- The run binding context ctxRun of WriteConfigFiles (supply.go:304-324);
    it is the context rendered into the dependency directory
    (supply.go:360).  Placeholder values such as the HOME value are literal
    template-syntax text, re-rendered only at container start. -/
def ctxRun (depsIdx webDir : Str) (phpExts zendExts : List Str) : List (Str × Str) :=
  [ (str "DepsIdx", depsIdx),
    (str "PhpFpmConfInclude", []),
    (str "PhpFpmListen", str "127.0.0.1:9000"),
    (str "Webdir", webDir),
    (str "HOME", str "\x7b\x7b.HOME\x7d\x7d"),
    (str "DEPS_DIR", str "\x7b\x7b.DEPS_DIR\x7d\x7d"),
    (str "TMPDIR", str "\x7b\x7b.TMPDIR\x7d\x7d"),
    (str "Libdir", str "lib"),
    (str "PhpExtensions", extensionLines phpExts),
    (str "ZendExtensions", zendExtensionLines zendExts) ]

/-- Go-map-style update on an association list with unique keys: the pair
    at the key is overwritten in place. -/
def setKey (m : List (Str × Str)) (k v : Str) : List (Str × Str) :=
  m.map (fun p => if p.1 = k then (k, v) else p)

/-- Go-map-style lookup in an association list. -/
def lookupKey (k : Str) : List (Str × Str) → Option Str
  | [] => none
  | p :: rest => if p.1 = k then some p.2 else lookupKey k rest

/-- The stage binding context ctxStage of WriteConfigFiles
    (supply.go:326-334): a copy of ctxRun with the DEPS_DIR, HOME and
    TMPDIR values replaced by staging-sandbox paths, and with
    "extension=openssl.so" appended to the PhpExtensions block; it is the
    context rendered under /tmp/php_etc (supply.go:360). -/
def ctxStage (depsIdx webDir : Str) (phpExts zendExts : List Str)
    (depsDir buildDir : Str) : List (Str × Str) :=
  setKey (setKey (setKey (setKey (ctxRun depsIdx webDir phpExts zendExts)
    (str "DEPS_DIR") depsDir)
    (str "HOME") buildDir)
    (str "TMPDIR") (str "/tmp"))
    (str "PhpExtensions") (extensionLines phpExts ++ str "extension=openssl.so\n")

lemma lookupKey_setKey_ne (m : List (Str × Str)) (k k' v : Str) (h : k' ≠ k) :
    lookupKey k' (setKey m k v) = lookupKey k' m := by
  induction m with
  | nil => rfl
  | cons p rest ih =>
    simp only [setKey, List.map_cons, lookupKey]
    by_cases hp : p.1 = k
    · rw [if_pos hp, if_neg (fun hc : k = k' => h hc.symm), if_neg (fun hc => h (hp ▸ hc).symm)]
      exact ih
    · rw [if_neg hp]
      by_cases hk : p.1 = k'
      · rw [if_pos hk, if_pos hk]
      · rw [if_neg hk, if_neg hk]
        exact ih

/-- The opening brace character of the template action syntax. -/
def lbrace : Char := '\x7b'

/-- The closing brace character of the template action syntax. -/
def rbrace : Char := '\x7d'

/-- One node of a parsed template: a literal character or a field
    reference. -/
inductive Seg where
  | lit : Char → Seg
  | ref : Str → Seg
deriving DecidableEq

/-- Fuel-driven parser for the subset of Go text/template syntax the
    rendered config templates use after the marker rewrite: literal text
    and field actions of the shape dot-name between doubled braces.  The
    mode argument is none in text mode and carries the reversed name read
    so far inside an action.  Any other action shape and any unterminated
    action parse to none (text/template reports a parse error there, which
    WriteConfigFiles propagates, supply.go:355-358).  Fuel at least the
    input length never runs out, as every step consumes a character. -/
def parseF : Nat → Option Str → Str → Option (List Seg)
  | _, none, [] => some []
  | _, some _, [] => none
  | 0, _, _ :: _ => none
  | fuel + 1, none, s =>
    match s with
    | c1 :: c2 :: c3 :: rest3 =>
      if c1 = lbrace ∧ c2 = lbrace then
        (if c3 = '.' then parseF fuel (some []) rest3 else none)
      else (parseF fuel none (c2 :: c3 :: rest3)).map (fun segs => Seg.lit c1 :: segs)
    | [c1, c2] =>
      if c1 = lbrace ∧ c2 = lbrace then none
      else (parseF fuel none [c2]).map (fun segs => Seg.lit c1 :: segs)
    | [c1] => some [Seg.lit c1]
    | [] => some []
  | fuel + 1, some nameRev, s =>
    match s with
    | c :: c2 :: rest2 =>
      if c = rbrace then
        (if c2 = rbrace then
          (if nameRev = [] then none
           else (parseF fuel none rest2).map (fun segs => Seg.ref nameRev.reverse :: segs))
         else none)
      else if c.isAlphanum ∨ c = '_' then parseF fuel (some (c :: nameRev)) (c2 :: rest2)
      else none
    | [c] =>
      if c = rbrace then none
      else if c.isAlphanum ∨ c = '_' then parseF fuel (some (c :: nameRev)) []
      else none
    | [] => none

/-- Parse of one rewritten template text (template.New(...).Parse,
    supply.go:355). -/
def parseTmpl (s : Str) : Option (List Seg) := parseF s.length none s

/-- Value a binding context gives a field name under execution: the bound
    value, or the text/template no-value text for a missing key. -/
def ctxVal (ctx : List (Str × Str)) (n : Str) : Str :=
  match lookupKey n ctx with
  | some v => v
  | none => str "<no value>"

/-- Execution of a parsed template against one binding context
    (tmplMessage.Execute, supply.go:369). -/
def renderSegs (ctx : List (Str × Str)) : List Seg → Str
  | [] => []
  | Seg.lit c :: rest => c :: renderSegs ctx rest
  | Seg.ref n :: rest => ctxVal ctx n ++ renderSegs ctx rest

/-- The legacy marker rewrite applied to every template text before
    parsing (supply.go:351-354): the bracketed DEPS_DIR, TMPDIR and HOME
    markers and the PHP_FPM_LISTEN comment marker become template field
    actions, in the order the code performs the four replacements. -/
def preprocess (t : Str) : Str :=
  replaceAll (str "#PHP_FPM_LISTEN") (str "\x7b\x7b.PhpFpmListen\x7d\x7d")
    (replaceAll (str "@\x7bHOME\x7d") (str "\x7b\x7b.HOME\x7d\x7d")
      (replaceAll (str "@\x7bTMPDIR\x7d") (str "\x7b\x7b.TMPDIR\x7d\x7d")
        (replaceAll (str "@\x7bDEPS_DIR\x7d") (str "\x7b\x7b.DEPS_DIR\x7d\x7d") t)))

/-- One template's render against one binding context, as WriteConfigFiles
    performs it per file and per context (supply.go:350-372): marker
    rewrite, parse, then execution; none models a parse error aborting the
    walk. -/
def renderFile (ctx : List (Str × Str)) (t : Str) : Option Str :=
  (parseTmpl (preprocess t)).map (renderSegs ctx)

/-- Cut a parsed template at its TMPDIR references: the pieces are the
    rendered runs between consecutive TMPDIR references, with every other
    reference rendered through the valuation f. -/
def refPieces (f : Str → Str) : List Seg → List Str
  | [] => [[]]
  | Seg.lit c :: rest =>
    match refPieces f rest with
    | [] => [[c]]
    | p :: ps => (c :: p) :: ps
  | Seg.ref n :: rest =>
    if n = str "TMPDIR" then [] :: refPieces f rest
    else
      match refPieces f rest with
      | [] => [f n]
      | p :: ps => (f n ++ p) :: ps

/-- Number of TMPDIR references in a parsed template. -/
def countTmpdirRefs : List Seg → Nat
  | [] => 0
  | Seg.ref n :: rest => (if n = str "TMPDIR" then 1 else 0) + countTmpdirRefs rest
  | Seg.lit _ :: rest => countTmpdirRefs rest

lemma refPieces_ne_nil (f : Str → Str) (segs : List Seg) : refPieces f segs ≠ [] := by
  cases segs with
  | nil => simp [refPieces]
  | cons sg rest =>
    cases sg with
    | lit c =>
      simp only [refPieces]
      cases refPieces f rest <;> simp
    | ref n =>
      simp only [refPieces]
      by_cases h : n = str "TMPDIR"
      · simp [h]
      · simp only [h, if_false]
        cases refPieces f rest <;> simp

lemma goJoin_cons_head (sep : Str) (c : Char) (p : Str) (ps : List Str) :
    goJoin sep ((c :: p) :: ps) = c :: goJoin sep (p :: ps) := by
  cases ps with
  | nil => simp [goJoin]
  | cons q qs => simp [goJoin]

lemma goJoin_append_head (sep v : Str) (p : Str) (ps : List Str) :
    goJoin sep ((v ++ p) :: ps) = v ++ goJoin sep (p :: ps) := by
  cases ps with
  | nil => simp [goJoin]
  | cons q qs => simp [goJoin]

/-- Rendering factors through the TMPDIR cut: the output is the pieces
    joined with the context's TMPDIR value as separator. -/
lemma renderSegs_eq_goJoin (ctx : List (Str × Str)) (segs : List Seg) :
    renderSegs ctx segs = goJoin (ctxVal ctx (str "TMPDIR")) (refPieces (ctxVal ctx) segs) := by
  induction segs with
  | nil => simp [renderSegs, refPieces, goJoin]
  | cons sg rest ih =>
    cases sg with
    | lit c =>
      simp only [renderSegs, refPieces]
      cases hr : refPieces (ctxVal ctx) rest with
      | nil => exact absurd hr (refPieces_ne_nil _ _)
      | cons p ps =>
        rw [goJoin_cons_head, ← hr, ← ih]
    | ref n =>
      simp only [renderSegs, refPieces]
      by_cases h : n = str "TMPDIR"
      · subst h
        rw [if_pos rfl]
        cases hr : refPieces (ctxVal ctx) rest with
        | nil => exact absurd hr (refPieces_ne_nil _ _)
        | cons p ps =>
          simp only [goJoin, List.nil_append]
          rw [← hr, ← ih]
      · rw [if_neg h]
        cases hr : refPieces (ctxVal ctx) rest with
        | nil => exact absurd hr (refPieces_ne_nil _ _)
        | cons p ps =>
          rw [goJoin_append_head, ← hr, ← ih]

/-- The cut depends only on the valuation of the non-TMPDIR references
    that occur. -/
lemma refPieces_congr (f g : Str → Str) (segs : List Seg)
    (h : ∀ n, Seg.ref n ∈ segs → n ≠ str "TMPDIR" → f n = g n) :
    refPieces f segs = refPieces g segs := by
  induction segs with
  | nil => rfl
  | cons sg rest ih =>
    have ih' := ih (fun n hn hne => h n (List.mem_cons_of_mem sg hn) hne)
    cases sg with
    | lit c => simp only [refPieces, ih']
    | ref n =>
      by_cases hn : n = str "TMPDIR"
      · simp only [refPieces, hn, if_true, ih']
      · simp only [refPieces, hn, if_false, ih',
          h n (List.mem_cons_self _ _) hn]

lemma refPieces_length (f : Str → Str) (segs : List Seg) :
    (refPieces f segs).length = countTmpdirRefs segs + 1 := by
  induction segs with
  | nil => simp [refPieces, countTmpdirRefs]
  | cons sg rest ih =>
    cases sg with
    | lit c =>
      simp only [refPieces, countTmpdirRefs]
      cases hr : refPieces f rest with
      | nil => exact absurd hr (refPieces_ne_nil _ _)
      | cons p ps => rw [hr] at ih; simpa using ih
    | ref n =>
      by_cases h : n = str "TMPDIR"
      · simp only [refPieces, countTmpdirRefs, h, if_true, List.length_cons, ih]
        omega
      · simp only [refPieces, countTmpdirRefs, h, if_false]
        cases hr : refPieces f rest with
        | nil => exact absurd hr (refPieces_ne_nil _ _)
        | cons p ps => rw [hr] at ih; simpa using ih

lemma containsSub_append_self (t a b : Str) : containsSub t (a ++ t ++ b) = true := by
  induction a with
  | nil =>
    have hpre : t.isPrefixOf (t ++ b) = true :=
      List.isPrefixOf_iff_prefix.mpr (List.prefix_append t b)
    simp only [List.nil_append]
    cases ht : t ++ b with
    | nil =>
      have : t = [] := by
        cases t with
        | nil => rfl
        | cons c cs => simp at ht
      subst this
      simp [containsSub, List.isPrefixOf]
    | cons c rest =>
      rw [containsSub, ← ht, hpre]
      simp
  | cons c a ih =>
    have : (c :: a) ++ t ++ b = c :: (a ++ t ++ b) := by simp
    rw [this, containsSub]
    split
    · rfl
    · exact ih

lemma ctxVal_stage_eq_run (depsIdx webDir : Str) (phpExts zendExts : List Str)
    (depsDir buildDir : Str) (n : Str) (h1 : n ≠ str "HOME") (h2 : n ≠ str "DEPS_DIR")
    (h3 : n ≠ str "TMPDIR") (h4 : n ≠ str "PhpExtensions") :
    ctxVal (ctxStage depsIdx webDir phpExts zendExts depsDir buildDir) n
      = ctxVal (ctxRun depsIdx webDir phpExts zendExts) n := by
  unfold ctxVal ctxStage
  rw [lookupKey_setKey_ne _ _ _ _ h4, lookupKey_setKey_ne _ _ _ _ h3,
    lookupKey_setKey_ne _ _ _ _ h1, lookupKey_setKey_ne _ _ _ _ h2]

/-- C10: versionLine replaces exactly the last dot-separated component of
    its input with "x": for every input the split of the output is the
    split of the input with the last component replaced by "x" (so leading
    components and dot count are preserved, and inputs with fewer than
    three components wildcard the minor or major component, as the concrete
    cases show), and versionLine is the identity on any string whose last
    component is already "x". -/
theorem claimC10_versionLine :
    (∀ v : Str, splitOnChar '.' (versionLine v)
        = (splitOnChar '.' v).dropLast ++ [str "x"])
    ∧ versionLine (str "7.2.14") = str "7.2.x"
    ∧ versionLine (str "7.2") = str "7.x"
    ∧ versionLine (str "7") = str "x"
    ∧ (∀ v : Str, (splitOnChar '.' v).getLast? = some (str "x") → versionLine v = v) := by
  refine ⟨?_, by decide, by decide, by decide, ?_⟩
  · intro v
    show splitOnChar '.' (goJoin (str ".") ((splitOnChar '.' v).dropLast ++ [str "x"])) = _
    have hdot : str "." = ['.'] := rfl
    rw [hdot]
    apply splitOnChar_goJoin
    · simp
    · intro p hp
      rcases List.mem_append.mp hp with hp | hp
      · exact not_mem_of_mem_splitOnChar '.' v p (List.dropLast_subset _ hp)
      · simp only [List.mem_singleton] at hp
        subst hp
        decide
  · intro v h
    have hne := splitOnChar_ne_nil '.' v
    have hlast : (splitOnChar '.' v).getLast hne = str "x" := by
      rw [List.getLast?_eq_getLast _ hne] at h
      exact Option.some_injective _ h
    show goJoin (str ".") ((splitOnChar '.' v).dropLast ++ [str "x"]) = v
    rw [← hlast, List.dropLast_append_getLast hne]
    exact goJoin_splitOnChar '.' v

/-- Witness for C10 at the concrete input "7.2.x", whose last component is
    already "x". -/
theorem claimC10_witness :
    (splitOnChar '.' (str "7.2.x")).getLast? = some (str "x")
    ∧ versionLine (str "7.2.x") = str "7.2.x" :=
  ⟨by decide, claimC10_versionLine.2.2.2.2 (str "7.2.x") (by decide)⟩

/-- C7: alias expansion expands PHP_(d)(d)_LATEST to "d.d.x", leaves any
    string without the alias pattern unchanged, is idempotent on every
    string, and the expansion happens before catalog matching: with no
    composer version, the candidate handed to the matcher is the expanded
    alias. -/
theorem claimC7_alias_expansion_idempotent :
    expandAlias (str "PHP_72_LATEST") = str "7.2.x"
    ∧ (∀ d1 d2 : Char, d1.isDigit = true → d2.isDigit = true →
        expandAlias ('P' :: 'H' :: 'P' :: '_' :: d1 :: d2 :: str "_LATEST")
          = [d1, '.', d2, '.', 'x'])
    ∧ (∀ v : Str, findAlias v = none → expandAlias v = v)
    ∧ (∀ v : Str, expandAlias (expandAlias v) = expandAlias v)
    ∧ (∀ fm : Str → Option Str, ∀ dv : Option Str, ∀ d1 d2 : Char,
        d1.isDigit = true → d2.isDigit = true →
        (setupPhpVersion ('P' :: 'H' :: 'P' :: '_' :: d1 :: d2 :: str "_LATEST")
            [] fm dv).candidate
          = some [d1, '.', d2, '.', 'x']) := by
  have hexp : ∀ d1 d2 : Char, d1.isDigit = true → d2.isDigit = true →
      expandAlias ('P' :: 'H' :: 'P' :: '_' :: d1 :: d2 :: str "_LATEST")
        = [d1, '.', d2, '.', 'x'] := by
    intro d1 d2 h1 h2
    have ha : aliasAt ('P' :: 'H' :: 'P' :: '_' :: d1 :: d2 :: str "_LATEST")
        = some (d1, d2) := by
      show aliasAt ['P', 'H', 'P', '_', d1, d2, '_', 'L', 'A', 'T', 'E', 'S', 'T']
          = some (d1, d2)
      simp [aliasAt, h1, h2]
    have hf : findAlias ('P' :: 'H' :: 'P' :: '_' :: d1 :: d2 :: str "_LATEST")
        = some (d1, d2) := by
      simp only [findAlias, ha]
    simp [expandAlias, hf]
  refine ⟨by decide, hexp, ?_, ?_, ?_⟩
  · intro v hv
    simp [expandAlias, hv]
  · intro v
    cases hf : findAlias v with
    | none => simp [expandAlias, hf]
    | some p =>
      obtain ⟨d1, d2⟩ := p
      have h5 : findAlias [d1, '.', d2, '.', 'x'] = none := rfl
      simp [expandAlias, hf, h5]
  · intro fm dv d1 d2 h1 h2
    have hne : ('P' :: 'H' :: 'P' :: '_' :: d1 :: d2 :: str "_LATEST" : Str) ≠ [] := by
      simp
    have hexp' := hexp d1 d2 h1 h2
    simp only [setupPhpVersion, if_neg hne, hexp']
    cases hm : fm [d1, '.', d2, '.', 'x'] <;> simp [hm]

/-- Witness for C7 at digits 7 and 2 and the dotted string "7.2". -/
theorem claimC7_witness :
    ('7'.isDigit = true) ∧ ('2'.isDigit = true)
    ∧ expandAlias ('P' :: 'H' :: 'P' :: '_' :: '7' :: '2' :: str "_LATEST")
        = ['7', '.', '2', '.', 'x']
    ∧ findAlias (str "7.2") = none
    ∧ expandAlias (str "7.2") = str "7.2" :=
  ⟨by decide, by decide,
   claimC7_alias_expansion_idempotent.2.1 '7' '2' (by decide) (by decide),
   by decide,
   claimC7_alias_expansion_idempotent.2.2.1 (str "7.2") (by decide)⟩

/-- C5: whenever composer.json supplies a non-empty php constraint, that
    constraint — with every occurrence of the greater-equal operator
    replaced by the compatible-with operator — is the candidate used for
    catalog matching, overriding any options-file version; and the
    precedence warning fires exactly when the options file also supplied a
    version. -/
theorem claimC5_composer_precedence (optVer compVer : Str)
    (findMatching : Str → Option Str) (defaultVer : Option Str)
    (h : compVer ≠ []) :
    (setupPhpVersion optVer compVer findMatching defaultVer).candidate
        = some (replaceAll (str ">=") (str "~>") compVer)
    ∧ ((setupPhpVersion optVer compVer findMatching defaultVer).precedenceWarning = true
        ↔ optVer ≠ []) := by
  have hv2 : replaceAll (str ">=") (str "~>") compVer ≠ [] :=
    replaceAll_ne_nil _ _ _ (by decide) h
  constructor
  · simp only [setupPhpVersion, if_neg h, if_neg hv2]
    cases hm : findMatching (replaceAll (str ">=") (str "~>") compVer) <;> simp [hm]
  · simp only [setupPhpVersion]
    rw [decide_eq_true_iff]
    constructor
    · rintro ⟨-, hv1⟩ ho
      rw [if_pos ho] at hv1
      exact hv1 rfl
    · intro ho
      refine ⟨h, ?_⟩
      rw [if_neg ho]
      exact expandAlias_ne_nil _ ho

/-- Witness for C5 with an options version "5" and a composer constraint
    containing the greater-equal operator. -/
theorem claimC5_witness :
    (str ">=7" ≠ ([] : Str))
    ∧ (setupPhpVersion (str "5") (str ">=7") (fun _ => none) none).candidate
        = some (replaceAll (str ">=") (str "~>") (str ">=7"))
    ∧ ((setupPhpVersion (str "5") (str ">=7") (fun _ => none) none).precedenceWarning = true
        ↔ str "5" ≠ ([] : Str)) :=
  ⟨by decide,
   (claimC5_composer_precedence (str "5") (str ">=7") (fun _ => none) none (by decide)).1,
   (claimC5_composer_precedence (str "5") (str ">=7") (fun _ => none) none (by decide)).2⟩

/-- C6: a candidate that matches nothing in the catalog is not fatal — the
    no-match warning fires and the catalog's default version is used — and
    the default lookup's own error is returned as the fatal result, both
    when a failed match fell back to it and when no candidate was supplied
    at all (Option.elim folds the two default-lookup outcomes). -/
theorem claimC6_lenient_fallback (optVer compVer : Str)
    (findMatching : Str → Option Str) (defaultVer : Option Str) :
    (∀ v2 : Str,
        (setupPhpVersion optVer compVer findMatching defaultVer).candidate = some v2 →
        findMatching v2 = none →
        (setupPhpVersion optVer compVer findMatching defaultVer).noMatchWarning = true
        ∧ (setupPhpVersion optVer compVer findMatching defaultVer).result
            = defaultVer.elim (Except.error ()) Except.ok)
    ∧ ((setupPhpVersion optVer compVer findMatching defaultVer).candidate = none →
        (setupPhpVersion optVer compVer findMatching defaultVer).result
          = defaultVer.elim (Except.error ()) Except.ok) := by
  by_cases hcomp : compVer = []
  · by_cases hopt : optVer = []
    · constructor
      · intro v2 hc hm
        simp [setupPhpVersion, hcomp, hopt] at hc
      · intro hc
        cases defaultVer <;> simp [setupPhpVersion, hcomp, hopt, Option.elim]
    · have hexp := expandAlias_ne_nil optVer hopt
      cases hm2 : findMatching (expandAlias optVer) with
      | none =>
        constructor
        · intro v2 hc hm
          constructor
          · simp [setupPhpVersion, hcomp, hopt, hexp, hm2]
          · cases defaultVer <;>
              simp [setupPhpVersion, hcomp, hopt, hexp, hm2, Option.elim]
        · intro hc
          simp [setupPhpVersion, hcomp, hopt, hexp, hm2] at hc
      | some v =>
        constructor
        · intro v2 hc hm
          simp [setupPhpVersion, hcomp, hopt, hexp, hm2] at hc
          rw [← hc] at hm
          rw [hm] at hm2
          exact absurd hm2 (by simp)
        · intro hc
          simp [setupPhpVersion, hcomp, hopt, hexp, hm2] at hc
  · have hv2 : replaceAll (str ">=") (str "~>") compVer ≠ [] :=
      replaceAll_ne_nil _ _ _ (by decide) hcomp
    cases hm2 : findMatching (replaceAll (str ">=") (str "~>") compVer) with
    | none =>
      constructor
      · intro v2 hc hm
        constructor
        · simp [setupPhpVersion, hcomp, hv2, hm2]
        · cases defaultVer <;>
            simp [setupPhpVersion, hcomp, hv2, hm2, Option.elim]
      · intro hc
        simp [setupPhpVersion, hcomp, hv2, hm2] at hc
    | some v =>
      constructor
      · intro v2 hc hm
        simp [setupPhpVersion, hcomp, hv2, hm2] at hc
        rw [← hc] at hm
        rw [hm] at hm2
        exact absurd hm2 (by simp)
      · intro hc
        simp [setupPhpVersion, hcomp, hv2, hm2] at hc

/-- Witness for C6: the constant no-match catalog with a default present
    falls back with a warning; the candidate is the options version. -/
theorem claimC6_witness :
    (setupPhpVersion (str "7.0") [] (fun _ => none) (some (str "7.4.0"))).candidate
        = some (str "7.0")
    ∧ (setupPhpVersion (str "7.0") [] (fun _ => none) (some (str "7.4.0"))).noMatchWarning
        = true
    ∧ (setupPhpVersion (str "7.0") [] (fun _ => none) (some (str "7.4.0"))).result
        = Except.ok (str "7.4.0") :=
  ⟨by decide,
   ((claimC6_lenient_fallback (str "7.0") [] (fun _ => none) (some (str "7.4.0"))).1
      (str "7.0") (by decide) rfl).1,
   ((claimC6_lenient_fallback (str "7.0") [] (fun _ => none) (some (str "7.4.0"))).1
      (str "7.0") (by decide) rfl).2⟩

/-- C3: a present PHP_EXTENSIONS array replaces the built-in defaults
    rather than unioning with them — a default not re-listed and not
    contributed by the composer require keys is absent from the final set —
    the deprecation warning fires, and every require key with the "ext-"
    marker contributes its stripped name whether or not the array was
    present. -/
theorem claimC3_options_replace (arr : List (Option Str)) (ks : List Str) :
    (setupExtensions (some arr) (some ks)).2 = true
    ∧ (∀ d : Str, d ∈ defaultPhpExtensions → some d ∉ arr →
        (∀ k, k ∈ ks → ¬((str "ext-").isPrefixOf k = true ∧ k.drop 4 = d)) →
        ¬(d = str "pdo" ∧ ∃ k ∈ ks, (str "ext-pdo_").isPrefixOf k = true) →
        d ∉ (setupExtensions (some arr) (some ks)).1)
    ∧ (∀ optPhp : Option (List (Option Str)), ∀ ks' : List Str, ∀ k : Str,
        k ∈ ks' → (str "ext-").isPrefixOf k = true →
        k.drop 4 ∈ (setupExtensions optPhp (some ks')).1) := by
  refine ⟨rfl, ?_, ?_⟩
  · intro d _ hnotarr hnoext hnopdo hmem
    have hmem' : d ∈ composerStep ks ((arr.filterMap id).toFinset) := hmem
    rw [mem_composerStep] at hmem'
    rcases hmem' with hbase | hext | hpdo
    · rw [List.mem_toFinset, List.mem_filterMap] at hbase
      obtain ⟨o, ho, hid⟩ := hbase
      cases o with
      | none => simp at hid
      | some x =>
        simp only [id, Option.some_inj] at hid
        subst hid
        exact hnotarr ho
    · obtain ⟨k, hk, hpre, hdrop⟩ := hext
      exact hnoext k hk ⟨hpre, hdrop.symm⟩
    · exact hnopdo ⟨hpdo.1, hpdo.2⟩
  · intro optPhp ks' k hk hpre
    have : k.drop 4 ∈ composerStep ks'
        (match optPhp with
          | none => defaultPhpExtensions
          | some a => (a.filterMap id).toFinset) := by
      rw [mem_composerStep]
      exact Or.inr (Or.inl ⟨k, hk, hpre, rfl⟩)
    cases optPhp with
    | none => exact this
    | some a => exact this

/-- Witness for C3: with the array re-listing only "gd" and require key
    "ext-curl", the default "bz2" is dropped, the warning fires, and the
    stripped require key "curl" is present. -/
theorem claimC3_witness :
    (str "bz2") ∈ defaultPhpExtensions
    ∧ (setupExtensions (some [some (str "gd")]) (some [str "ext-curl"])).2 = true
    ∧ (str "bz2") ∉ (setupExtensions (some [some (str "gd")]) (some [str "ext-curl"])).1
    ∧ (str "ext-curl").drop 4
        ∈ (setupExtensions (some [some (str "gd")]) (some [str "ext-curl"])).1 :=
  ⟨by decide,
   (claimC3_options_replace [some (str "gd")] [str "ext-curl"]).1,
   (claimC3_options_replace [some (str "gd")] [str "ext-curl"]).2.1 (str "bz2")
     (by decide) (by decide) (by decide) (by decide),
   (claimC3_options_replace [some (str "gd")] [str "ext-curl"]).2.2
     (some [some (str "gd")]) [str "ext-curl"] (str "ext-curl") (by decide) (by decide)⟩

/-- C8: a require map containing "ext-curl" and "ext-pdo_mysql" yields an
    extension set containing curl, pdo_mysql and the umbrella pdo, and any
    key with the "ext-pdo_" driver sub-marker implies pdo membership. -/
theorem claimC8_pdo_umbrella (optPhp : Option (List (Option Str))) (ks : List Str)
    (h1 : str "ext-curl" ∈ ks) (h2 : str "ext-pdo_mysql" ∈ ks) :
    str "curl" ∈ (setupExtensions optPhp (some ks)).1
    ∧ str "pdo_mysql" ∈ (setupExtensions optPhp (some ks)).1
    ∧ str "pdo" ∈ (setupExtensions optPhp (some ks)).1
    ∧ (∀ k, k ∈ ks → (str "ext-pdo_").isPrefixOf k = true →
        str "pdo" ∈ (setupExtensions optPhp (some ks)).1) := by
  have hbase : ∀ x : Str,
      (x ∈ composerStep ks
        (match optPhp with
          | none => defaultPhpExtensions
          | some a => (a.filterMap id).toFinset)) →
      x ∈ (setupExtensions optPhp (some ks)).1 := by
    intro x hx
    cases optPhp with
    | none => exact hx
    | some a => exact hx
  refine ⟨?_, ?_, ?_, ?_⟩
  · refine hbase _ ?_
    rw [mem_composerStep]
    exact Or.inr (Or.inl ⟨str "ext-curl", h1, by decide, by decide⟩)
  · refine hbase _ ?_
    rw [mem_composerStep]
    exact Or.inr (Or.inl ⟨str "ext-pdo_mysql", h2, by decide, by decide⟩)
  · refine hbase _ ?_
    rw [mem_composerStep]
    exact Or.inr (Or.inr ⟨rfl, str "ext-pdo_mysql", h2, by decide⟩)
  · intro k hk hpre
    refine hbase _ ?_
    rw [mem_composerStep]
    exact Or.inr (Or.inr ⟨rfl, k, hk, hpre⟩)

/-- Witness for C8 at the require key list of end-to-end scenario 3. -/
theorem claimC8_witness :
    str "curl" ∈ (setupExtensions none (some [str "ext-curl", str "ext-pdo_mysql"])).1
    ∧ str "pdo_mysql" ∈ (setupExtensions none (some [str "ext-curl", str "ext-pdo_mysql"])).1
    ∧ str "pdo" ∈ (setupExtensions none (some [str "ext-curl", str "ext-pdo_mysql"])).1 :=
  ⟨(claimC8_pdo_umbrella none [str "ext-curl", str "ext-pdo_mysql"]
      (by decide) (by decide)).1,
   (claimC8_pdo_umbrella none [str "ext-curl", str "ext-pdo_mysql"]
      (by decide) (by decide)).2.1,
   (claimC8_pdo_umbrella none [str "ext-curl", str "ext-pdo_mysql"]
      (by decide) (by decide)).2.2.1⟩

/-- Counterexample to C4 as stated: with options array ["gd"] and require
    key "ext-curl", merging composer before the options array loses the
    composer contribution, because a present options array replaces the
    accumulated set; the second conjunct ties the code order to
    SetupExtensions' actual output. -/
theorem claimC4_counterexample :
    mergeIn [ExtSource.defaults, ExtSource.options (some [some (str "gd")]),
        ExtSource.composer (some [str "ext-curl"])]
      ≠ mergeIn [ExtSource.defaults, ExtSource.composer (some [str "ext-curl"]),
        ExtSource.options (some [some (str "gd")])]
    ∧ (setupExtensions (some [some (str "gd")]) (some [str "ext-curl"])).1
      = mergeIn [ExtSource.defaults, ExtSource.options (some [some (str "gd")]),
        ExtSource.composer (some [str "ext-curl"])] :=
  ⟨by decide, setupExtensions_eq_mergeIn _ _⟩

/-- C4 (amended): aggregation is order-independent when the options-file
    extension array is absent — every source then acts additively, so any
    permutation of the three sources merges to the same set; with the
    array present, replacement makes the options step's position
    significant. -/
theorem claimC4_order_independence (c : Option (List Str)) (l : List ExtSource)
    (hperm : l.Perm [ExtSource.defaults, ExtSource.options none, ExtSource.composer c]) :
    mergeIn l
      = mergeIn [ExtSource.defaults, ExtSource.options none, ExtSource.composer c] := by
  have hadd : ∀ src ∈ [ExtSource.defaults, ExtSource.options none,
      ExtSource.composer c], IsAdditive src := by
    intro src hsrc
    simp only [List.mem_cons, List.not_mem_nil, or_false] at hsrc
    rcases hsrc with rfl | rfl | rfl
    · exact additive_defaults
    · exact additive_options_none
    · exact additive_composer c
  have hadd' : ∀ src ∈ l, IsAdditive src := fun src hs => hadd src (hperm.mem_iff.mp hs)
  unfold mergeIn
  rw [foldl_additive _ _ hadd', foldl_additive _ _ hadd,
    unionAll_perm (hperm.map sourceContrib)]

/-- Witness for C4 (amended) at a concrete permutation placing the
    composer source first. -/
theorem claimC4_witness :
    ([ExtSource.composer (some [str "ext-curl"]), ExtSource.defaults,
        ExtSource.options none].Perm
      [ExtSource.defaults, ExtSource.options none,
        ExtSource.composer (some [str "ext-curl"])])
    ∧ mergeIn [ExtSource.composer (some [str "ext-curl"]), ExtSource.defaults,
        ExtSource.options none]
      = mergeIn [ExtSource.defaults, ExtSource.options none,
        ExtSource.composer (some [str "ext-curl"])] :=
  ⟨by decide,
   claimC4_order_independence (some [str "ext-curl"])
     [ExtSource.composer (some [str "ext-curl"]), ExtSource.defaults,
       ExtSource.options none] (by decide)⟩

/-- Counterexample to C1 as stated: with the aggregated set being the
    defaults (openssl absent) enumerated as bz2, zlib, curl, mcrypt, the
    run context's PhpExtensions block does not contain the
    "extension=openssl.so" line, and the stage context's block is not the
    serialization of the aggregated set alone — the code appends the
    openssl line to the stage context, not the run context. -/
theorem claimC1_counterexample :
    (str "openssl") ∉ (setupExtensions none none).1
    ∧ containsSub (str "extension=openssl.so")
        ((lookupKey (str "PhpExtensions")
          (ctxRun (str "0") [] [str "bz2", str "zlib", str "curl", str "mcrypt"] [])).getD [])
        = false
    ∧ lookupKey (str "PhpExtensions")
        (ctxStage (str "0") [] [str "bz2", str "zlib", str "curl", str "mcrypt"] []
          (str "/deps") (str "/build"))
      ≠ some (extensionLines [str "bz2", str "zlib", str "curl", str "mcrypt"]) := by
  refine ⟨by decide, by decide, by decide⟩

/-- C1 (amended): it is the stage binding context — the one written under
    /tmp/php_etc and used while staging runs the package manager — that
    force-enables openssl: its PhpExtensions block is the serialization of
    the aggregated set followed by the line "extension=openssl.so", and
    that line occurs in it even when the aggregated set omits openssl,
    while the run context's block (written under the dependency directory)
    is the serialization of the aggregated set alone. -/
theorem claimC1_stage_forces_openssl (depsIdx webDir : Str)
    (phpExts zendExts : List Str) (depsDir buildDir : Str) :
    lookupKey (str "PhpExtensions")
        (ctxStage depsIdx webDir phpExts zendExts depsDir buildDir)
      = some (extensionLines phpExts ++ str "extension=openssl.so\n")
    ∧ lookupKey (str "PhpExtensions") (ctxRun depsIdx webDir phpExts zendExts)
      = some (extensionLines phpExts)
    ∧ containsSub (str "extension=openssl.so")
        (extensionLines phpExts ++ str "extension=openssl.so\n") = true := by
  refine ⟨rfl, rfl, ?_⟩
  have h := containsSub_append_self (str "extension=openssl.so")
    (extensionLines phpExts) (str "\n")
  simpa [List.append_assoc] using h

/-- Counterexample to C2 as stated: the PhpExtensions key — not a path or
    cache key — binds different values in the stage and run contexts, here
    with an empty aggregated set; no package-manager cache key exists in
    either context. -/
theorem claimC2_counterexample :
    lookupKey (str "PhpExtensions")
        (ctxStage (str "0") [] [] [] (str "/deps") (str "/build"))
      ≠ lookupKey (str "PhpExtensions") (ctxRun (str "0") [] [] [])
    ∧ (str "PhpExtensions") ∉ [str "HOME", str "DEPS_DIR", str "TMPDIR"] := by
  refine ⟨by decide, by decide⟩

/-- C2 (amended): the stage and run contexts built by WriteConfigFiles
    have exactly the same keys, and a key binds different values in the
    two contexts only when it is HOME, DEPS_DIR, TMPDIR or PhpExtensions:
    every other key binds identical values.  The contexts contain no
    package-manager cache key; the cache directory is passed to the
    package manager through its environment, not through the contexts. -/
theorem claimC2_context_congruence (depsIdx webDir : Str)
    (phpExts zendExts : List Str) (depsDir buildDir : Str) :
    (ctxStage depsIdx webDir phpExts zendExts depsDir buildDir).map Prod.fst
      = (ctxRun depsIdx webDir phpExts zendExts).map Prod.fst
    ∧ (∀ k : Str, k ≠ str "HOME" → k ≠ str "DEPS_DIR" → k ≠ str "TMPDIR" →
        k ≠ str "PhpExtensions" →
        lookupKey k (ctxStage depsIdx webDir phpExts zendExts depsDir buildDir)
          = lookupKey k (ctxRun depsIdx webDir phpExts zendExts)) := by
  constructor
  · rfl
  · intro k h1 h2 h3 h4
    unfold ctxStage
    rw [lookupKey_setKey_ne _ _ _ _ h4, lookupKey_setKey_ne _ _ _ _ h3,
      lookupKey_setKey_ne _ _ _ _ h1, lookupKey_setKey_ne _ _ _ _ h2]

/-- Witness for C2 (amended) at the Webdir key, which is none of the four
    differing keys. -/
theorem claimC2_witness :
    (str "Webdir" ≠ str "HOME" ∧ str "Webdir" ≠ str "DEPS_DIR"
      ∧ str "Webdir" ≠ str "TMPDIR" ∧ str "Webdir" ≠ str "PhpExtensions")
    ∧ lookupKey (str "Webdir")
        (ctxStage (str "0") (str "web") [] [] (str "/deps") (str "/build"))
      = lookupKey (str "Webdir") (ctxRun (str "0") (str "web") [] []) :=
  ⟨⟨by decide, by decide, by decide, by decide⟩,
   (claimC2_context_congruence (str "0") (str "web") [] [] (str "/deps")
      (str "/build")).2 (str "Webdir") (by decide) (by decide) (by decide) (by decide)⟩

/-- Counterexample to C9 as stated: the template holding the temp-dir
    marker immediately followed by the home marker renders with different
    surrounding text in the two contexts — substituting the run context's
    temp placeholder back to /tmp does not reproduce the stage render — so
    the rest of the rendered text is not identical for every template
    containing the temp-dir marker. -/
theorem claimC9_counterexample :
    renderFile (ctxStage (str "0") [] [] [] (str "/deps") (str "/build"))
        (str "@\x7bTMPDIR\x7d@\x7bHOME\x7d") = some (str "/tmp/build")
    ∧ renderFile (ctxRun (str "0") [] [] [])
        (str "@\x7bTMPDIR\x7d@\x7bHOME\x7d")
        = some (str "\x7b\x7b.TMPDIR\x7d\x7d\x7b\x7b.HOME\x7d\x7d")
    ∧ replaceAll (str "\x7b\x7b.TMPDIR\x7d\x7d") (str "/tmp")
        (str "\x7b\x7b.TMPDIR\x7d\x7d\x7b\x7b.HOME\x7d\x7d") ≠ str "/tmp/build" := by
  refine ⟨by decide, by decide, by decide⟩

/-- C9 (amended): for every template whose parse contains no reference
    bound differently in the two contexts other than TMPDIR (no HOME,
    DEPS_DIR or PhpExtensions reference), the dual render yields the same
    piece list joined once with "/tmp" (stage) and once with the literal
    TMPDIR placeholder (run): each TMPDIR reference position holds /tmp in
    the stage-rooted file and the runtime placeholder in the run-rooted
    file, the rest of the text is identical, the piece count is the TMPDIR
    reference count plus one, and preprocessing maps the bracketed temp-dir
    marker itself to exactly such a TMPDIR reference. -/
theorem claimC9_tmpdir_dual_render (depsIdx webDir : Str)
    (phpExts zendExts : List Str) (depsDir buildDir : Str) (t : Str) (segs : List Seg)
    (hparse : parseTmpl (preprocess t) = some segs)
    (hrefs : ∀ n : Str, Seg.ref n ∈ segs →
      n ≠ str "HOME" ∧ n ≠ str "DEPS_DIR" ∧ n ≠ str "PhpExtensions") :
    renderFile (ctxStage depsIdx webDir phpExts zendExts depsDir buildDir) t
        = some (goJoin (str "/tmp")
            (refPieces (ctxVal (ctxRun depsIdx webDir phpExts zendExts)) segs))
    ∧ renderFile (ctxRun depsIdx webDir phpExts zendExts) t
        = some (goJoin (str "\x7b\x7b.TMPDIR\x7d\x7d")
            (refPieces (ctxVal (ctxRun depsIdx webDir phpExts zendExts)) segs))
    ∧ (refPieces (ctxVal (ctxRun depsIdx webDir phpExts zendExts)) segs).length
        = countTmpdirRefs segs + 1
    ∧ parseTmpl (preprocess (str "@\x7bTMPDIR\x7d")) = some [Seg.ref (str "TMPDIR")] := by
  have hcongr :
      refPieces (ctxVal (ctxStage depsIdx webDir phpExts zendExts depsDir buildDir)) segs
        = refPieces (ctxVal (ctxRun depsIdx webDir phpExts zendExts)) segs := by
    apply refPieces_congr
    intro n hn hne
    obtain ⟨ha, hb, hc⟩ := hrefs n hn
    exact ctxVal_stage_eq_run depsIdx webDir phpExts zendExts depsDir buildDir n
      ha hb hne hc
  refine ⟨?_, ?_, refPieces_length _ _, by decide⟩
  · unfold renderFile
    rw [hparse]
    show some (renderSegs (ctxStage depsIdx webDir phpExts zendExts depsDir buildDir) segs)
        = _
    rw [renderSegs_eq_goJoin]
    have hT : ctxVal (ctxStage depsIdx webDir phpExts zendExts depsDir buildDir)
        (str "TMPDIR") = str "/tmp" := rfl
    rw [hT, hcongr]
  · unfold renderFile
    rw [hparse]
    show some (renderSegs (ctxRun depsIdx webDir phpExts zendExts) segs) = _
    rw [renderSegs_eq_goJoin]
    rfl

/-- Witness for C9 (amended) at the template that is exactly the bracketed
    temp-dir marker. -/
theorem claimC9_witness :
    parseTmpl (preprocess (str "@\x7bTMPDIR\x7d")) = some [Seg.ref (str "TMPDIR")]
    ∧ renderFile (ctxStage (str "0") [] [] [] (str "/deps") (str "/build"))
        (str "@\x7bTMPDIR\x7d")
        = some (goJoin (str "/tmp")
            (refPieces (ctxVal (ctxRun (str "0") [] [] [])) [Seg.ref (str "TMPDIR")]))
    ∧ renderFile (ctxRun (str "0") [] [] []) (str "@\x7bTMPDIR\x7d")
        = some (goJoin (str "\x7b\x7b.TMPDIR\x7d\x7d")
            (refPieces (ctxVal (ctxRun (str "0") [] [] [])) [Seg.ref (str "TMPDIR")])) :=
  ⟨by decide,
   (claimC9_tmpdir_dual_render (str "0") [] [] [] (str "/deps") (str "/build")
      (str "@\x7bTMPDIR\x7d") [Seg.ref (str "TMPDIR")] (by decide)
      (by
        intro n hn
        simp only [List.mem_singleton, Seg.ref.injEq] at hn
        subst hn
        exact ⟨by decide, by decide, by decide⟩)).1,
   (claimC9_tmpdir_dual_render (str "0") [] [] [] (str "/deps") (str "/build")
      (str "@\x7bTMPDIR\x7d") [Seg.ref (str "TMPDIR")] (by decide)
      (by
        intro n hn
        simp only [List.mem_singleton, Seg.ref.injEq] at hn
        subst hn
        exact ⟨by decide, by decide, by decide⟩)).2.1⟩
